import Mathlib

/-!
Shallow embedding of `askbot/views/cats.py`: the category-tree admin AJAX
API of askbot.  Categories live in a tree store (django-mptt), tags attach
to categories through a many-to-many join, and a handful of AJAX views
validate requests and mutate the store.  Each Python view is translated to
a pure Lean function over an explicit `Store`; Django exceptions become an
`Except ApiError` result which the `admin_ajax_post` decorator (or the
per-view try/except boundary) converts into a JSON error envelope.
-/

namespace AskbotCats

/-- Modelled from the spec: Django's `django.utils.html.escape`, used by the
views to HTML-escape user-supplied names.  It replaces the five HTML
metacharacters with entity references. -/
def escape (s : String) : String :=
  String.join (s.toList.map (fun c =>
    if c == '&' then "&amp;"
    else if c == '<' then "&lt;"
    else if c == '>' then "&gt;"
    else if c == '"' then "&quot;"
    else if c == Char.ofNat 39 then "&#39;"
    else String.singleton c))

/-- A row of the `categories.Category` model: Django integer PK, name,
optional parent PK, and the zero-based mptt tree level. -/
structure Category where
  id : Nat
  name : String
  parent : Option Nat
  level : Nat
deriving DecidableEq

/-- A row of the askbot `Tag` model (only the fields the views touch). -/
structure Tag where
  id : Nat
  name : String
deriving DecidableEq

/-- The persistent state the views read and mutate: category rows, tag rows,
the tag-category many-to-many join (pairs of (tag id, category id)), and the
auto-increment PK counter. -/
structure Store where
  categories : List Category
  tags : List Tag
  tagCats : List (Nat × Nat)
  nextId : Nat
deriving DecidableEq

/-- `Category.objects.get(id=i)` (None when absent). -/
def Store.getCategoryById (s : Store) (i : Nat) : Option Category :=
  s.categories.find? (fun c => c.id == i)

/-- `Category.objects.get(name=n)` (None when absent). -/
def Store.getCategoryByName (s : Store) (n : String) : Option Category :=
  s.categories.find? (fun c => c.name == n)

/-- `Tag.objects.get(id=i)` (None when absent). -/
def Store.getTagById (s : Store) (i : Nat) : Option Tag :=
  s.tags.find? (fun t => t.id == i)

/-- `node.get_children()`: direct children, in store order. -/
def Store.childrenOf (s : Store) (i : Nat) : List Category :=
  s.categories.filter (fun c => c.parent == some i)

/-- `node.is_leaf_node()`. -/
def Store.isLeafNode (s : Store) (c : Category) : Bool :=
  (s.childrenOf c.id).isEmpty

/-- `cache_tree_children(Category.tree.all())`: the list of root nodes, in
store order. -/
def Store.rootCategories (s : Store) : List Category :=
  s.categories.filter (fun c => c.parent == none)

/-- `node.tags`: the tags associated with category `i` via the m2m join. -/
def Store.tagsOfCategory (s : Store) (i : Nat) : List Tag :=
  (s.tagCats.filter (fun p => p.2 == i)).filterMap
    (fun p => s.tags.find? (fun t => t.id == p.1))

/-- `tag.categories`: the categories associated with tag `i`. -/
def Store.categoriesOfTag (s : Store) (i : Nat) : List Category :=
  (s.tagCats.filter (fun p => p.1 == i)).filterMap
    (fun p => s.getCategoryById p.2)

/-- Row insertion performed by `Category.objects.get_or_create` when the name
is new: the mptt level of the new node is parent level + 1 (0 for a root). -/
def Store.createCategory (s : Store) (name : String) (parent : Option Category) :
    Store :=
  let lvl := match parent with
    | some p => p.level + 1
    | none => 0
  { s with
      categories := s.categories ++ [⟨s.nextId, name, parent.map (fun p => p.id), lvl⟩],
      nextId := s.nextId + 1 }

/-- `node.delete()`: removes the category row (the ORM cascades the m2m join
rows of that category). -/
def Store.removeCategory (s : Store) (i : Nat) : Store :=
  { s with
      categories := s.categories.filter (fun c => c.id != i),
      tagCats := s.tagCats.filter (fun p => p.2 != i) }

/-- `node.tags.clear()`: drops every m2m join row of category `i`. -/
def Store.clearCategoryTags (s : Store) (i : Nat) : Store :=
  { s with tagCats := s.tagCats.filter (fun p => p.2 != i) }

/-- `tag.categories.add(cat)`: m2m add, idempotent at the store level. -/
def Store.addTagCategory (s : Store) (tagId catId : Nat) : Store :=
  if s.tagCats.contains (tagId, catId) then s
  else { s with tagCats := s.tagCats ++ [(tagId, catId)] }

/-- `cat.tags.remove(tag)`: drops the (tag, category) join rows. -/
def Store.removeTagCategory (s : Store) (tagId catId : Nat) : Store :=
  { s with tagCats := s.tagCats.filter (fun p => !(p.1 == tagId && p.2 == catId)) }

/-- `node.name = n; node.save()`. -/
def Store.renameCategory (s : Store) (i : Nat) (n : String) : Store :=
  { s with
      categories := s.categories.map
        (fun c => if c.id == i then { c with name := n } else c) }

/-! ## Tree serializer -/

/-- The nested name/id/children structure produced by `_recurse_tree`. -/
inductive TreeNode where
  | node (name : String) (id : Nat) (children : List TreeNode)

def TreeNode.name : TreeNode → String
  | .node n _ _ => n

def TreeNode.id : TreeNode → Nat
  | .node _ i _ => i

def TreeNode.children : TreeNode → List TreeNode
  | .node _ _ c => c

/-- All ids occurring anywhere in a serialized tree. -/
def TreeNode.ids : TreeNode → List Nat
  | .node _ i cs => i :: (cs.attach.map (fun x => TreeNode.ids x.1)).flatten
decreasing_by
  simp only [TreeNode.node.sizeOf_spec]
  have h := List.sizeOf_lt_of_mem x.2
  omega

/-- `_recurse_tree(node)`.  The Python recursion always terminates because
the store tree is finite and acyclic; the embedding makes that explicit with
a fuel argument (callers pass a fuel larger than the maximum tree level, so
the recursion is never cut short). -/
def recurse_tree (s : Store) : Nat → Category → TreeNode
  | 0, node => .node node.name node.id []
  | fuel + 1, node =>
    .node node.name node.id
      (if s.isLeafNode node then []
       else (s.childrenOf node.id).map (fun c => recurse_tree s fuel c))

/-- Largest mptt level stored for any category. -/
def Store.maxLevel (s : Store) : Nat :=
  (s.categories.map (fun c => c.level)).foldr Nat.max 0

/-- `generate_tree()`: `{}` (here `none`) when there is no root, otherwise
the serialization of the first root only. -/
def generate_tree (s : Store) : Option TreeNode :=
  match s.rootCategories with
  | [] => none
  | r :: _ => some (recurse_tree s (s.maxLevel + 1) r)

/-! ## Requests, responses and errors -/

/-- The configuration values the views read. -/
structure Settings where
  enableCategories : Bool
  maxTreeDepth : Nat
deriving DecidableEq

/-- The request properties the views inspect. -/
structure Request where
  isAjax : Bool
  httpMethod : String
  isAuthenticated : Bool
  isAdministrator : Bool
  isModerator : Bool
deriving DecidableEq

/-- The typed exceptions raised by the view bodies. -/
inductive ApiError where
  | validationErr (msg : String)
  | permissionDenied (msg : String)
  | valueErr (msg : String)
deriving DecidableEq

def ApiError.message : ApiError → String
  | .validationErr m => m
  | .permissionDenied m => m
  | .valueErr m => m

/-- The JSON response envelope: `status` plus the optional extra keys any of
the views may set. -/
structure JsonResponse where
  status : String
  message : Option String
  token : Option String
  tags : Option (List String)
  cats : Option (List (Nat × String))
deriving DecidableEq

def successJson : JsonResponse := ⟨"success", none, none, none, none⟩

def noopJson : JsonResponse := ⟨"noop", none, none, none, none⟩

def errorJson (m : String) : JsonResponse := ⟨"error", some m, none, none, none⟩

/-- The HTTP-level outcomes a view can produce. -/
inductive Response where
  | notFound
  | redirect
  | forbidden (msg : String)
  | methodNotAllowed
  | json (body : JsonResponse)
  | plainText (body : String)
deriving DecidableEq

/-- Message substitution done by every except-boundary: an empty message is
replaced with a generic apology. -/
def orApology (m : String) : String :=
  if m == "" then "Oops, apologies - there was some error" else m

/-- Python truthiness of an optional string parameter (`if not new_name`). -/
def truthyStr : Option String → Bool
  | none => false
  | some st => st != ""

/-- Python truthiness of an optional integer parameter (`if not cat_id`):
an absent value and 0 are both falsy. -/
def truthyNat : Option Nat → Bool
  | none => false
  | some n => n != 0

/-! The message strings of the views (apostrophes spelled via `Char.ofNat`). -/

def doesNotTxt : String := "doesn" ++ String.singleton (Char.ofNat 39) ++ "t"

def msgMissingName : String := "Missing or invalid new category name parameter"

def msgMissingRequired : String := "Missing or invalid required parameter"

def msgMissingParam : String := "Missing required parameter"

def msgMissingTagId : String := "Missing tag_id parameter"

def msgParentNoExist : String := "Requested parent category " ++ doesNotTxt ++ " exist"

def msgCatNoExist : String := "Requested category " ++ doesNotTxt ++ " exist"

def msgTagNoExist : String := "Requested tag " ++ doesNotTxt ++ " exist"

def msgDepth : String := "Invalid category nesting depth level"

def msgDuplicate : String := "There is already a category with that name"

def msgInvalidToken : String := "Invalid token provided"

def msgAnon : String := "Sorry, but anonymous users cannot access this view"

def msgNoAccess : String := "Sorry, but you cannot access this view"

def msgMustPost : String := "must use POST request"

/-- The `admin_ajax_post` decorator: feature-flag 404 (outside the
try/except), redirect for non-AJAX, then PermissionDenied checks and the
wrapped view inside a boundary that maps any raised error to a JSON error
envelope (leaving the store untouched). -/
def adminAjaxPost (settings : Settings) (req : Request) (s : Store)
    (view : Store → Except ApiError (JsonResponse × Store)) : Response × Store :=
  if !settings.enableCategories then (.notFound, s)
  else if !req.isAjax then (.redirect, s)
  else if req.httpMethod != "POST" then
    (.json (errorJson (orApology msgMustPost)), s)
  else if !req.isAuthenticated then
    (.json (errorJson (orApology msgAnon)), s)
  else if !req.isAdministrator then
    (.json (errorJson (orApology msgNoAccess)), s)
  else
    match view s with
    | .ok (body, s2) => (.json body, s2)
    | .error e => (.json (errorJson (orApology e.message)), s)

/-! ## View bodies -/

/-- Tail of `add_category` once the parent is resolved: the
`get_or_create(name=new_name, defaults=parent)` call and the duplicate-name
check. -/
def addCategoryFinish (new_name : Option String) (s : Store)
    (parent : Option Category) : Except ApiError (JsonResponse × Store) :=
  match s.getCategoryByName (new_name.getD "") with
  | some _ => .error (.validationErr msgDuplicate)
  | none => .ok (successJson, s.createCategory (new_name.getD "") parent)

/-- Body of `add_category` (inside the decorator). -/
def addCategoryCore (settings : Settings) (new_name : Option String)
    (parent_id : Option Nat) (s : Store) :
    Except ApiError (JsonResponse × Store) :=
  if !truthyStr new_name then .error (.validationErr msgMissingName)
  else if truthyNat parent_id then
    match s.getCategoryById (parent_id.getD 0) with
    | none => .error (.validationErr msgParentNoExist)
    | some p =>
      if settings.maxTreeDepth - 1 ≤ p.level then .error (.valueErr msgDepth)
      else addCategoryFinish new_name s (some p)
  else addCategoryFinish new_name s none

/-- `add_category` view. -/
def add_category (settings : Settings) (req : Request) (s : Store)
    (new_name : Option String) (parent_id : Option Nat) : Response × Store :=
  adminAjaxPost settings req s (addCategoryCore settings new_name parent_id)

/-- Body of `rename_category` (inside the decorator). -/
def renameCategoryCore (new_name : Option String) (cat_id : Option Nat)
    (s : Store) : Except ApiError (JsonResponse × Store) :=
  if !truthyStr new_name || !truthyNat cat_id then
    .error (.validationErr msgMissingRequired)
  else
    match s.getCategoryById (cat_id.getD 0) with
    | none => .error (.validationErr msgCatNoExist)
    | some node =>
      if new_name.getD "" != node.name then
        match s.getCategoryByName (new_name.getD "") with
        | some _ => .error (.validationErr msgDuplicate)
        | none => .ok (successJson, s.renameCategory node.id (new_name.getD ""))
      else .ok (noopJson, s)

/-- `rename_category` view. -/
def rename_category (settings : Settings) (req : Request) (s : Store)
    (new_name : Option String) (cat_id : Option Nat) : Response × Store :=
  adminAjaxPost settings req s (renameCategoryCore new_name cat_id)

/-- Body of `add_tag_to_category` (inside the decorator).  Note the presence
check: `if not tag_id or cat_id is None` — a present `cat_id` of 0 passes. -/
def addTagToCategoryCore (tag_id : Option Nat) (cat_id : Option Nat)
    (s : Store) : Except ApiError (JsonResponse × Store) :=
  if !truthyNat tag_id || cat_id == none then
    .error (.validationErr msgMissingParam)
  else
    match s.getCategoryById (cat_id.getD 0) with
    | none => .error (.validationErr msgCatNoExist)
    | some cat =>
      match s.getTagById (tag_id.getD 0) with
      | none => .error (.validationErr msgTagNoExist)
      | some tag => .ok (successJson, s.addTagCategory tag.id cat.id)

/-- `add_tag_to_category` view. -/
def add_tag_to_category (settings : Settings) (req : Request) (s : Store)
    (tag_id : Option Nat) (cat_id : Option Nat) : Response × Store :=
  adminAjaxPost settings req s (addTagToCategoryCore tag_id cat_id)

/-- Body of `get_tag_categories` (inside its own try/except).  The category
names in the `cats` key are HTML-escaped. -/
def getTagCategoriesCore (tag_id : Option Nat) (s : Store) :
    Except ApiError JsonResponse :=
  if !truthyNat tag_id then .error (.validationErr msgMissingTagId)
  else
    match s.getTagById (tag_id.getD 0) with
    | none => .error (.validationErr msgTagNoExist)
    | some tag =>
      .ok ⟨"success", none, none, none,
           some ((s.categoriesOfTag tag.id).map (fun c => (c.id, escape c.name)))⟩

/-- `get_tag_categories` view: feature-flag 404 first, then the AJAX/POST
checks, with its own error boundary.  Open to anonymous users. -/
def get_tag_categories (settings : Settings) (req : Request) (s : Store)
    (tag_id : Option Nat) : Response :=
  if !settings.enableCategories then .notFound
  else if !req.isAjax then .redirect
  else if req.httpMethod != "POST" then .json (errorJson (orApology msgMustPost))
  else
    match getTagCategoriesCore tag_id s with
    | .ok body => .json body
    | .error e => .json (errorJson (orApology e.message))

/-- Body of `remove_tag_from_category` (inside its own try/except). -/
def removeTagFromCategoryCore (tag_id : Option Nat) (cat_id : Option Nat)
    (s : Store) : Except ApiError (JsonResponse × Store) :=
  if !truthyNat tag_id || cat_id == none then
    .error (.validationErr msgMissingParam)
  else
    match s.getCategoryById (cat_id.getD 0) with
    | none => .error (.validationErr msgCatNoExist)
    | some cat =>
      match s.getTagById (tag_id.getD 0) with
      | none => .error (.validationErr msgTagNoExist)
      | some tag =>
        if (s.tagCats.filter (fun p => p.1 == tag.id && p.2 == cat.id)).length != 0 then
          .ok (successJson, s.removeTagCategory tag.id cat.id)
        else .ok (noopJson, s)

/-- `remove_tag_from_category` view: open to administrators and moderators. -/
def remove_tag_from_category (settings : Settings) (req : Request) (s : Store)
    (tag_id : Option Nat) (cat_id : Option Nat) : Response × Store :=
  if !settings.enableCategories then (.notFound, s)
  else if !req.isAjax then (.redirect, s)
  else if req.httpMethod != "POST" then
    (.json (errorJson (orApology msgMustPost)), s)
  else if !req.isAuthenticated then
    (.json (errorJson (orApology msgAnon)), s)
  else if !(req.isAdministrator || req.isModerator) then
    (.json (errorJson (orApology msgNoAccess)), s)
  else
    match removeTagFromCategoryCore tag_id cat_id s with
    | .ok (body, s2) => (.json body, s2)
    | .error e => (.json (errorJson (orApology e.message)), s)

/-- The tag-count / has-children decision of `delete_category`, reached only
after the token (when present) has been verified.  The tag names of the
`need_confirmation` answer are taken verbatim from the store (no escaping in
the source). -/
def deleteCategoryBranch (makeToken : Category → String) (s : Store)
    (node : Category) (token : Option String) : JsonResponse × Store :=
  if (s.tagsOfCategory node.id).length == 0 && !(!s.isLeafNode node) then
    (successJson, s.removeCategory node.id)
  else if !s.isLeafNode node then
    (⟨"cannot_delete_subcategories", none, none, none, none⟩, s)
  else if (s.tagsOfCategory node.id).length != 0 then
    match token with
    | none =>
      (⟨"need_confirmation", none, some (makeToken node),
        some ((s.tagsOfCategory node.id).map (fun t => t.name)), none⟩, s)
    | some _ =>
      (successJson, (s.clearCategoryTags node.id).removeCategory node.id)
  else (⟨"", none, none, none, none⟩, s)

/-- Body of `delete_category` (inside the decorator), parametrized by the
externally-defined `CategoriesApiTokenGenerator` check/make functions.  A
present token is verified against the node before the decision table runs. -/
def deleteCategoryCore (checkToken : Category → String → Bool)
    (makeToken : Category → String) (cat_id : Option Nat)
    (token : Option String) (s : Store) :
    Except ApiError (JsonResponse × Store) :=
  if !truthyNat cat_id then .error (.validationErr msgMissingRequired)
  else
    match s.getCategoryById (cat_id.getD 0) with
    | none => .error (.validationErr msgCatNoExist)
    | some node =>
      match token with
      | some t =>
        if !checkToken node t then .error (.validationErr msgInvalidToken)
        else .ok (deleteCategoryBranch makeToken s node token)
      | none => .ok (deleteCategoryBranch makeToken s node token)

/-- `delete_category` view. -/
def delete_category (checkToken : Category → String → Bool)
    (makeToken : Category → String) (settings : Settings) (req : Request)
    (s : Store) (cat_id : Option Nat) (token : Option String) :
    Response × Store :=
  adminAjaxPost settings req s (deleteCategoryCore checkToken makeToken cat_id token)

/-- Insertion step of the name ordering used by `order_by('name')`. -/
def insertByName (c : Category) : List Category → List Category
  | [] => [c]
  | d :: ds => if c.name ≤ d.name then c :: d :: ds else d :: insertByName c ds

/-- `Category.objects.order_by('name')`. -/
def sortByName : List Category → List Category
  | [] => []
  | c :: cs => insertByName c (sortByName cs)

/-- One output line of `get_categories`: name escaped, then `|`, id, newline. -/
def categoryLine (c : Category) : String :=
  escape c.name ++ "|" ++ toString c.id ++ "\n"

/-- `get_categories` view: GET + AJAX + authenticated administrator only,
plain-text listing of escaped `name|id` lines ordered by name. -/
def get_categories (settings : Settings) (req : Request) (s : Store) : Response :=
  if !settings.enableCategories then .notFound
  else if req.httpMethod != "GET" then .methodNotAllowed
  else if !req.isAuthenticated then .forbidden msgAnon
  else if !req.isAdministrator then .forbidden msgNoAccess
  else if !req.isAjax then .forbidden msgNoAccess
  else .plainText (String.join ((sortByName s.categories).map categoryLine))

/-! ## Store well-formedness (mptt invariants) -/

/-- A category row satisfies the mptt level/parent invariant within store
`s`: roots sit at level 0, and a parent pointer resolves to a stored node
one level up. -/
def parentOkB (s : Store) (c : Category) : Bool :=
  match c.parent with
  | none => c.level == 0
  | some p => s.categories.any (fun pc => pc.id == p && c.level == pc.level + 1)

/-- The mptt invariants the tree store maintains, for every row. -/
def Store.wellFormed (s : Store) : Prop :=
  ∀ c ∈ s.categories, parentOkB s c = true

/-- Primary keys are unique. -/
def Store.uniqueIds (s : Store) : Prop :=
  (s.categories.map (fun c => c.id)).Nodup

/-- Category names are unique (the invariant the admin API maintains). -/
def Store.namesNodup (s : Store) : Prop :=
  (s.categories.map (fun c => c.name)).Nodup

/-- `InSubtree s r d`: `d` lies in the subtree rooted at `r`
(reflexive-transitive closure of the stored child relation). -/
inductive InSubtree (s : Store) (r : Category) : Category → Prop
  | refl : InSubtree s r r
  | step (p c : Category) : InSubtree s r p → c ∈ s.categories →
      c.parent = some p.id → InSubtree s r c

/-- The checks of the `admin_ajax_post` decorator all pass. -/
def adminOk (settings : Settings) (req : Request) : Prop :=
  settings.enableCategories = true ∧ req.isAjax = true ∧
  req.httpMethod = "POST" ∧ req.isAuthenticated = true ∧
  req.isAdministrator = true

/-! ## Concrete witnesses data -/

def settingsOn : Settings := ⟨true, 3⟩

def settingsOff : Settings := ⟨false, 3⟩

def reqAdmin : Request := ⟨true, "POST", true, true, false⟩

def catA : Category := ⟨1, "A", none, 0⟩

def catB : Category := ⟨2, "B", some 1, 1⟩

def catR2 : Category := ⟨3, "R2", none, 0⟩

def tag5 : Tag := ⟨5, "t5"⟩

def tagXss : Tag := ⟨7, "<b>"⟩

/-- One tagless leaf category. -/
def store1 : Store := ⟨[catA], [], [], 10⟩

/-- A root with one child. -/
def store2 : Store := ⟨[catA, catB], [], [], 10⟩

/-- One leaf category with one associated tag. -/
def store3 : Store := ⟨[catA], [tag5], [(5, 1)], 10⟩

/-- One leaf category tagged by a markup-bearing tag name. -/
def storeX : Store := ⟨[catA], [tagXss], [(7, 1)], 10⟩

/-- Two roots, the first of which has a child. -/
def storeM : Store := ⟨[catA, catB, catR2], [], [], 10⟩

/-- A concrete stand-in for `CategoriesApiTokenGenerator().check_token`. -/
def checkTokenEx (c : Category) (t : String) : Bool := t == "tok" ++ toString c.id

/-- A concrete stand-in for `CategoriesApiTokenGenerator().make_token`. -/
def makeTokenEx (c : Category) : String := "tok" ++ toString c.id

/-! ## Helper lemmas -/

theorem TreeNode.ids_node (n : String) (i : Nat) (cs : List TreeNode) :
    (TreeNode.node n i cs).ids = i :: (cs.map TreeNode.ids).flatten := by
  rw [TreeNode.ids, List.attach_map_val]

theorem adminAjaxPost_ok (settings : Settings) (req : Request) (s : Store)
    (view : Store → Except ApiError (JsonResponse × Store))
    (h : adminOk settings req) :
    adminAjaxPost settings req s view =
      match view s with
      | .ok (b, s2) => (Response.json b, s2)
      | .error e => (Response.json (errorJson (orApology e.message)), s) := by
  obtain ⟨h1, h2, h3, h4, h5⟩ := h
  simp [adminAjaxPost, h1, h2, h3, h4, h5]

theorem adminAjaxPost_error (settings : Settings) (req : Request) (s : Store)
    (view : Store → Except ApiError (JsonResponse × Store)) (e : ApiError)
    (hok : adminOk settings req) (h : view s = .error e) :
    adminAjaxPost settings req s view =
      (Response.json (errorJson (orApology e.message)), s) := by
  rw [adminAjaxPost_ok settings req s view hok, h]

theorem adminAjaxPost_success (settings : Settings) (req : Request) (s : Store)
    (view : Store → Except ApiError (JsonResponse × Store)) (b : JsonResponse)
    (s2 : Store) (hok : adminOk settings req) (h : view s = .ok (b, s2)) :
    adminAjaxPost settings req s view = (Response.json b, s2) := by
  rw [adminAjaxPost_ok settings req s view hok, h]

theorem deleteCore_invalid_token (ct : Category → String → Bool)
    (mt : Category → String) (s : Store) (cid : Nat) (node : Category)
    (t : String) (hcid : cid ≠ 0) (hfind : s.getCategoryById cid = some node)
    (htok : ct node t = false) :
    deleteCategoryCore ct mt (some cid) (some t) s =
      .error (.validationErr msgInvalidToken) := by
  simp [deleteCategoryCore, truthyNat, hcid, hfind, htok]

theorem deleteCore_checked (ct : Category → String → Bool)
    (mt : Category → String) (s : Store) (cid : Nat) (node : Category)
    (token : Option String) (hcid : cid ≠ 0)
    (hfind : s.getCategoryById cid = some node)
    (htok : token.all (fun t => ct node t) = true) :
    deleteCategoryCore ct mt (some cid) token s =
      .ok (deleteCategoryBranch mt s node token) := by
  cases token with
  | none => simp [deleteCategoryCore, truthyNat, hcid, hfind]
  | some t =>
    have ht : ct node t = true := by simpa using htok
    simp [deleteCategoryCore, truthyNat, hcid, hfind, ht]

theorem deleteBranch_empty_leaf (mt : Category → String) (s : Store)
    (node : Category) (token : Option String)
    (htags : (s.tagsOfCategory node.id).length = 0)
    (hleaf : s.isLeafNode node = true) :
    deleteCategoryBranch mt s node token =
      (successJson, s.removeCategory node.id) := by
  simp [deleteCategoryBranch, htags, hleaf]

theorem deleteBranch_children (mt : Category → String) (s : Store)
    (node : Category) (token : Option String)
    (hleaf : s.isLeafNode node = false) :
    deleteCategoryBranch mt s node token =
      (⟨"cannot_delete_subcategories", none, none, none, none⟩, s) := by
  simp [deleteCategoryBranch, hleaf]

theorem deleteBranch_need_confirmation (mt : Category → String) (s : Store)
    (node : Category) (htags : (s.tagsOfCategory node.id).length ≠ 0)
    (hleaf : s.isLeafNode node = true) :
    deleteCategoryBranch mt s node none =
      (⟨"need_confirmation", none, some (mt node),
        some ((s.tagsOfCategory node.id).map (fun t => t.name)), none⟩, s) := by
  simp [deleteCategoryBranch, htags, hleaf]

theorem deleteBranch_confirm (mt : Category → String) (s : Store)
    (node : Category) (t : String)
    (htags : (s.tagsOfCategory node.id).length ≠ 0)
    (hleaf : s.isLeafNode node = true) :
    deleteCategoryBranch mt s node (some t) =
      (successJson, (s.clearCategoryTags node.id).removeCategory node.id) := by
  simp [deleteCategoryBranch, htags, hleaf]

theorem addCore_with_parent (settings : Settings) (name : String) (pid : Nat)
    (parent : Category) (s : Store) (hname : name ≠ "") (hpid : pid ≠ 0)
    (hfind : s.getCategoryById pid = some parent) :
    addCategoryCore settings (some name) (some pid) s =
      if settings.maxTreeDepth - 1 ≤ parent.level then
        .error (.valueErr msgDepth)
      else addCategoryFinish (some name) s (some parent) := by
  simp [addCategoryCore, truthyStr, truthyNat, hname, hpid, hfind]

theorem addTagCore_cat_missing (tid : Option Nat) (cv : Nat) (s : Store)
    (htid : truthyNat tid = true) (hfind : s.getCategoryById cv = none) :
    addTagToCategoryCore tid (some cv) s =
      .error (.validationErr msgCatNoExist) := by
  simp [addTagToCategoryCore, htid, hfind]

theorem addTagCore_tag_missing (tid : Option Nat) (cv : Nat) (cat : Category)
    (s : Store) (htid : truthyNat tid = true)
    (hfindc : s.getCategoryById cv = some cat)
    (hfindt : s.getTagById (tid.getD 0) = none) :
    addTagToCategoryCore tid (some cv) s =
      .error (.validationErr msgTagNoExist) := by
  simp [addTagToCategoryCore, htid, hfindc, hfindt]

theorem getCategoryByName_of_mem (s : Store) (c : Category) (name : String)
    (hc : c ∈ s.categories) (hn : c.name = name) :
    ∃ d, s.getCategoryByName name = some d := by
  cases hfound : s.getCategoryByName name with
  | some d => exact ⟨d, rfl⟩
  | none =>
    exfalso
    have hx := List.find?_eq_none.mp hfound c hc
    simp [hn] at hx

theorem namesNodup_inj (s : Store) (h : s.namesNodup) (a b : Category)
    (ha : a ∈ s.categories) (hb : b ∈ s.categories) (hn : a.name = b.name) :
    a = b :=
  List.inj_on_of_nodup_map h ha hb hn

theorem uniqueIds_inj (s : Store) (h : s.uniqueIds) (a b : Category)
    (ha : a ∈ s.categories) (hb : b ∈ s.categories) (hn : a.id = b.id) :
    a = b :=
  List.inj_on_of_nodup_map h ha hb hn

theorem addCategoryFinish_dup (new_name : Option String) (s : Store)
    (parent : Option Category) (d : Category)
    (hfound : s.getCategoryByName (new_name.getD "") = some d) :
    addCategoryFinish new_name s parent =
      .error (.validationErr msgDuplicate) := by
  unfold addCategoryFinish
  rw [hfound]

theorem addCore_root (settings : Settings) (name : String) (pid : Option Nat)
    (s : Store) (hname : name ≠ "") (hpid : truthyNat pid = false) :
    addCategoryCore settings (some name) pid s =
      addCategoryFinish (some name) s none := by
  simp [addCategoryCore, truthyStr, hname, hpid]

theorem renameCore_dup (s : Store) (name : String) (cid : Nat)
    (node c : Category) (hname : name ≠ "") (hcid : cid ≠ 0)
    (hfind : s.getCategoryById cid = some node) (hc : c ∈ s.categories)
    (hcname : c.name = name) (hne : c.id ≠ node.id) (hnn : s.namesNodup) :
    renameCategoryCore (some name) (some cid) s =
      .error (.validationErr msgDuplicate) := by
  have hnode_mem : node ∈ s.categories := List.mem_of_find?_eq_some hfind
  have hdiff : name ≠ node.name := by
    intro h
    apply hne
    have hcn : c = node := namesNodup_inj s hnn c node hc hnode_mem
      (by rw [hcname, h])
    rw [hcn]
  obtain ⟨d, hd⟩ := getCategoryByName_of_mem s c name hc hcname
  simp [renameCategoryCore, truthyStr, truthyNat, hname, hcid, hfind, hdiff, hd]

/-! ### Name-uniqueness preservation -/

theorem createCategory_namesNodup (s : Store) (name : String)
    (parent : Option Category) (hn : s.namesNodup)
    (hfresh : s.getCategoryByName name = none) :
    (s.createCategory name parent).namesNodup := by
  have hne : ∀ c ∈ s.categories, c.name ≠ name := by
    intro c hc h
    have hx := List.find?_eq_none.mp hfresh c hc
    simp [h] at hx
  unfold Store.namesNodup Store.createCategory
  simp only [List.map_append, List.map_cons, List.map_nil]
  rw [List.nodup_append]
  refine ⟨hn, List.nodup_singleton _, ?_⟩
  intro a ha hb
  simp only [List.mem_singleton] at hb
  obtain ⟨c, hc, hcc⟩ := List.mem_map.mp ha
  exact hne c hc (by rw [hcc, hb])

theorem rename_map_nodup (l : List Category) (i : Nat) (n : String)
    (hnames : (l.map (fun c => c.name)).Nodup)
    (hids : (l.map (fun c => c.id)).Nodup)
    (hfresh : ∀ c ∈ l, c.name ≠ n) :
    ((l.map (fun c => if c.id == i then { c with name := n } else c)).map
      (fun c => c.name)).Nodup := by
  induction l with
  | nil => simp
  | cons a t ih =>
    simp only [List.map_cons, List.nodup_cons] at hnames hids
    obtain ⟨hna, hnt⟩ := hnames
    obtain ⟨hia, hit⟩ := hids
    have hfresh_t : ∀ c ∈ t, c.name ≠ n :=
      fun c hc => hfresh c (List.mem_cons_of_mem a hc)
    simp only [List.map_cons, List.nodup_cons]
    refine ⟨?_, ih hnt hit hfresh_t⟩
    intro hmem
    rw [List.map_map] at hmem
    obtain ⟨c, hcmem, hceq⟩ := List.mem_map.mp hmem
    by_cases hc : c.id = i <;> by_cases ha : a.id = i
    · apply hia
      exact List.mem_map.mpr ⟨c, hcmem, by rw [hc, ha]⟩
    · simp [hc, ha] at hceq
      exact hfresh a (List.mem_cons_self a t) hceq.symm
    · simp [hc, ha] at hceq
      exact hfresh c (List.mem_cons_of_mem a hcmem) hceq
    · simp [hc, ha] at hceq
      exact hna (List.mem_map.mpr ⟨c, hcmem, hceq⟩)

theorem removeCategory_namesNodup (s : Store) (i : Nat) (hn : s.namesNodup) :
    (s.removeCategory i).namesNodup :=
  List.Nodup.sublist (List.Sublist.map _ (List.filter_sublist _)) hn

theorem renameCategory_namesNodup (s : Store) (i : Nat) (n : String)
    (hn : s.namesNodup) (hu : s.uniqueIds)
    (hfresh : s.getCategoryByName n = none) :
    (s.renameCategory i n).namesNodup := by
  have hne : ∀ c ∈ s.categories, c.name ≠ n := by
    intro c hc h
    have hx := List.find?_eq_none.mp hfresh c hc
    simp [h] at hx
  exact rename_map_nodup s.categories i n hn hu hne

theorem addFinish_preserves (new_name : Option String) (s : Store)
    (parent : Option Category) (b : JsonResponse) (s2 : Store)
    (h : addCategoryFinish new_name s parent = .ok (b, s2))
    (hn : s.namesNodup) : s2.namesNodup := by
  unfold addCategoryFinish at h
  split at h
  · simp at h
  next heq =>
    simp only [Except.ok.injEq, Prod.mk.injEq] at h
    obtain ⟨h1, h2⟩ := h
    rw [← h2]
    exact createCategory_namesNodup s _ parent hn heq

theorem addCore_preserves (settings : Settings) (new_name : Option String)
    (pid : Option Nat) (s : Store) (b : JsonResponse) (s2 : Store)
    (h : addCategoryCore settings new_name pid s = .ok (b, s2))
    (hn : s.namesNodup) : s2.namesNodup := by
  unfold addCategoryCore at h
  split at h
  · simp at h
  split at h
  · split at h
    · simp at h
    · split at h
      · simp at h
      · exact addFinish_preserves new_name s _ b s2 h hn
  · exact addFinish_preserves new_name s none b s2 h hn

theorem renameCore_preserves (new_name : Option String) (cid : Option Nat)
    (s : Store) (b : JsonResponse) (s2 : Store)
    (h : renameCategoryCore new_name cid s = .ok (b, s2))
    (hn : s.namesNodup) (hu : s.uniqueIds) : s2.namesNodup := by
  unfold renameCategoryCore at h
  split at h
  · simp at h
  split at h
  · simp at h
  · split at h
    · split at h
      · simp at h
      next heq =>
        simp only [Except.ok.injEq, Prod.mk.injEq] at h
        obtain ⟨h1, h2⟩ := h
        rw [← h2]
        exact renameCategory_namesNodup s _ _ hn hu heq
    · simp only [Except.ok.injEq, Prod.mk.injEq] at h
      obtain ⟨h1, h2⟩ := h
      rw [← h2]
      exact hn

theorem deleteBranch_snd (mt : Category → String) (s : Store)
    (node : Category) (token : Option String) :
    (deleteCategoryBranch mt s node token).2 = s ∨
    (deleteCategoryBranch mt s node token).2 = s.removeCategory node.id ∨
    (deleteCategoryBranch mt s node token).2 =
      (s.clearCategoryTags node.id).removeCategory node.id := by
  unfold deleteCategoryBranch
  repeat' split
  all_goals first
    | exact Or.inl rfl
    | exact Or.inr (Or.inl rfl)
    | exact Or.inr (Or.inr rfl)

theorem deleteBranch_preserves (mt : Category → String) (s : Store)
    (node : Category) (token : Option String) (hn : s.namesNodup) :
    ((deleteCategoryBranch mt s node token).2).namesNodup := by
  rcases deleteBranch_snd mt s node token with h | h | h <;> rw [h]
  · exact hn
  · exact removeCategory_namesNodup s node.id hn
  · exact removeCategory_namesNodup (s.clearCategoryTags node.id) node.id hn

theorem deleteCore_preserves (ct : Category → String → Bool)
    (mt : Category → String) (cid : Option Nat) (token : Option String)
    (s : Store) (b : JsonResponse) (s2 : Store)
    (h : deleteCategoryCore ct mt cid token s = .ok (b, s2))
    (hn : s.namesNodup) : s2.namesNodup := by
  unfold deleteCategoryCore at h
  split at h
  · simp at h
  split at h
  · simp at h
  · split at h
    · split at h
      · simp at h
      · simp only [Except.ok.injEq] at h
        have h2 : s2 = (deleteCategoryBranch mt s _ _).2 :=
          (congrArg Prod.snd h).symm
        rw [h2]
        exact deleteBranch_preserves mt s _ _ hn
    · simp only [Except.ok.injEq] at h
      have h2 : s2 = (deleteCategoryBranch mt s _ _).2 :=
        (congrArg Prod.snd h).symm
      rw [h2]
      exact deleteBranch_preserves mt s _ _ hn

theorem adminAjaxPost_preserves (settings : Settings) (req : Request)
    (s : Store) (view : Store → Except ApiError (JsonResponse × Store))
    (hview : ∀ b s2, view s = .ok (b, s2) → s2.namesNodup)
    (hn : s.namesNodup) :
    ((adminAjaxPost settings req s view).2).namesNodup := by
  unfold adminAjaxPost
  repeat' split
  any_goals exact hn
  next b s2 heq => exact hview b s2 heq

theorem categoriesOfTag_mem (s : Store) (i : Nat) (c : Category)
    (hc : c ∈ s.categoriesOfTag i) : c ∈ s.categories := by
  unfold Store.categoriesOfTag at hc
  obtain ⟨p, hp, hfind⟩ := List.mem_filterMap.mp hc
  exact List.mem_of_find?_eq_some hfind

theorem insertByName_mem (c : Category) (l : List Category) (d : Category) :
    d ∈ insertByName c l ↔ d = c ∨ d ∈ l := by
  induction l with
  | nil => simp [insertByName]
  | cons a t ih =>
    unfold insertByName
    split
    · simp only [List.mem_cons]
    · simp only [List.mem_cons, ih]
      tauto

theorem sortByName_mem (l : List Category) (d : Category) :
    d ∈ sortByName l ↔ d ∈ l := by
  induction l with
  | nil => simp [sortByName]
  | cons a t ih =>
    unfold sortByName
    rw [insertByName_mem]
    simp [List.mem_cons, ih]

/-! ### Tree lemmas -/

theorem mem_le_foldr_max (l : List Nat) (x : Nat) (hx : x ∈ l) :
    x ≤ l.foldr Nat.max 0 := by
  induction l with
  | nil => cases hx
  | cons a t ih =>
    simp only [List.foldr_cons]
    rcases List.mem_cons.mp hx with h | h
    · rw [h]; exact Nat.le_max_left _ _
    · exact Nat.le_trans (ih h) (Nat.le_max_right _ _)

theorem level_le_maxLevel (s : Store) (c : Category) (hc : c ∈ s.categories) :
    c.level ≤ s.maxLevel :=
  mem_le_foldr_max _ _ (List.mem_map.mpr ⟨c, hc, rfl⟩)

theorem wellFormed_root (s : Store) (hw : s.wellFormed) (c : Category)
    (hc : c ∈ s.categories) (hp : c.parent = none) : c.level = 0 := by
  have h := hw c hc
  unfold parentOkB at h
  rw [hp] at h
  simpa using h

theorem wellFormed_parent (s : Store) (hw : s.wellFormed) (c : Category)
    (hc : c ∈ s.categories) (p : Nat) (hp : c.parent = some p) :
    ∃ pc ∈ s.categories, pc.id = p ∧ c.level = pc.level + 1 := by
  have h := hw c hc
  unfold parentOkB at h
  rw [hp] at h
  obtain ⟨pc, hpc, hb⟩ := List.any_eq_true.mp h
  rw [Bool.and_eq_true] at hb
  exact ⟨pc, hpc, by simpa using hb.1, by simpa using hb.2⟩

theorem childrenOf_mem (s : Store) (i : Nat) (c : Category)
    (hc : c ∈ s.childrenOf i) : c ∈ s.categories ∧ c.parent = some i := by
  unfold Store.childrenOf at hc
  have h := List.mem_filter.mp hc
  exact ⟨h.1, by simpa using h.2⟩

theorem child_level (s : Store) (hw : s.wellFormed) (hu : s.uniqueIds)
    (node : Category) (hn : node ∈ s.categories) (c : Category)
    (hc : c ∈ s.childrenOf node.id) :
    c ∈ s.categories ∧ c.level = node.level + 1 := by
  obtain ⟨hmem, hp⟩ := childrenOf_mem s node.id c hc
  obtain ⟨pc, hpc, hpcid, hlvl⟩ := wellFormed_parent s hw c hmem node.id hp
  have he : pc = node := uniqueIds_inj s hu pc node hpc hn hpcid
  rw [he] at hlvl
  exact ⟨hmem, hlvl⟩

theorem recurse_tree_adequate (s : Store) (c : Category) (fuel : Nat)
    (hc : c ∈ s.categories) (hf : s.maxLevel < c.level + fuel) :
    recurse_tree s fuel c =
      .node c.name c.id
        ((s.childrenOf c.id).map (fun d => recurse_tree s (fuel - 1) d)) := by
  cases fuel with
  | zero =>
    exfalso
    have := level_le_maxLevel s c hc
    omega
  | succ f =>
    show TreeNode.node c.name c.id
        (if s.isLeafNode c then []
         else (s.childrenOf c.id).map (fun d => recurse_tree s f d)) = _
    by_cases hleaf : s.isLeafNode c = true
    · have hnil : s.childrenOf c.id = [] := by
        simpa [Store.isLeafNode, List.isEmpty_iff] using hleaf
      rw [if_pos hleaf, hnil]
      simp
    · rw [if_neg hleaf]
      simp

theorem exists_root_aux (s : Store) (hw : s.wellFormed) :
    ∀ (n : Nat) (c : Category), c ∈ s.categories → c.level = n →
      ∃ r ∈ s.categories, r.parent = none := by
  intro n
  induction n using Nat.strong_induction_on with
  | _ n ih =>
    intro c hc hl
    cases hp : c.parent with
    | none => exact ⟨c, hc, hp⟩
    | some p =>
      obtain ⟨pc, hpc, hpcid, hlvl⟩ := wellFormed_parent s hw c hc p hp
      exact ih pc.level (by omega) pc hpc rfl

theorem rootCategories_ne_nil (s : Store) (hw : s.wellFormed)
    (hne : s.categories ≠ []) : s.rootCategories ≠ [] := by
  obtain ⟨c, hc⟩ := List.exists_mem_of_ne_nil s.categories hne
  obtain ⟨r, hr, hrp⟩ := exists_root_aux s hw c.level c hc rfl
  intro hcon
  have hmem : r ∈ s.rootCategories :=
    List.mem_filter.mpr ⟨hr, by simp [hrp]⟩
  rw [hcon] at hmem
  cases hmem

theorem generate_tree_cons (s : Store) (r : Category) (rest : List Category)
    (h : s.rootCategories = r :: rest) :
    generate_tree s = some (recurse_tree s (s.maxLevel + 1) r) := by
  unfold generate_tree
  rw [h]

theorem rootCategories_fact (s : Store) (r : Category)
    (hr : r ∈ s.rootCategories) : r ∈ s.categories ∧ r.parent = none := by
  have h := List.mem_filter.mp hr
  exact ⟨h.1, by simpa using h.2⟩

theorem rootCategories_ids_nodup (s : Store) (hu : s.uniqueIds) :
    (s.rootCategories.map (fun c => c.id)).Nodup :=
  List.Nodup.sublist (List.Sublist.map _ (List.filter_sublist _)) hu

theorem inSubtree_mem (s : Store) (r : Category) (hr : r ∈ s.categories) :
    ∀ d, InSubtree s r d → d ∈ s.categories := by
  intro d h
  induction h with
  | refl => exact hr
  | step p c hp hcm hcp ih => exact hcm

theorem inSubtree_trans (s : Store) (a b : Category) (h1 : InSubtree s a b) :
    ∀ c, InSubtree s b c → InSubtree s a c := by
  intro c h2
  induction h2 with
  | refl => exact h1
  | step p d hp hdm hdp ih => exact InSubtree.step p d ih hdm hdp

theorem ids_subtree (s : Store) :
    ∀ (fuel : Nat) (c : Category) (i : Nat),
      i ∈ (recurse_tree s fuel c).ids →
      ∃ d, InSubtree s c d ∧ d.id = i := by
  intro fuel
  induction fuel with
  | zero =>
    intro c i hi
    have h0 : recurse_tree s 0 c = .node c.name c.id [] := rfl
    rw [h0, TreeNode.ids_node] at hi
    simp only [List.map_nil, List.flatten_nil, List.mem_singleton] at hi
    exact ⟨c, InSubtree.refl, hi.symm⟩
  | succ f ih =>
    intro c i hi
    have h1 : recurse_tree s (f + 1) c = .node c.name c.id
        (if s.isLeafNode c then []
         else (s.childrenOf c.id).map (fun d => recurse_tree s f d)) := rfl
    rw [h1, TreeNode.ids_node] at hi
    rcases List.mem_cons.mp hi with hic | hic
    · exact ⟨c, InSubtree.refl, hic.symm⟩
    · rw [List.mem_flatten] at hic
      obtain ⟨lst, hlst, hil⟩ := hic
      rw [List.mem_map] at hlst
      obtain ⟨tn, htn, hteq⟩ := hlst
      rw [← hteq] at hil
      by_cases hleaf : s.isLeafNode c = true
      · rw [if_pos hleaf] at htn
        cases htn
      · rw [if_neg hleaf] at htn
        obtain ⟨d, hd, hdeq⟩ := List.mem_map.mp htn
        rw [← hdeq] at hil
        obtain ⟨e, he, hei⟩ := ih d i hil
        obtain ⟨hdm, hdp⟩ := childrenOf_mem s c.id d hd
        exact ⟨e,
          inSubtree_trans s c d (InSubtree.step c d InSubtree.refl hdm hdp) e he,
          hei⟩

theorem inSubtree_inversion (s : Store) (r d : Category)
    (h : InSubtree s r d) :
    d = r ∨ ∃ p, InSubtree s r p ∧ d.parent = some p.id := by
  cases h with
  | refl => exact Or.inl rfl
  | step p c hp hcm hcp => exact Or.inr ⟨p, hp, hcp⟩

theorem subtree_disjoint (s : Store) (hw : s.wellFormed) (hu : s.uniqueIds)
    (r0 r1 : Category) (h0 : r0 ∈ s.categories) (h1 : r1 ∈ s.categories)
    (hp0 : r0.parent = none) (hp1 : r1.parent = none) (hne : r0.id ≠ r1.id) :
    ∀ d, InSubtree s r0 d → InSubtree s r1 d → False := by
  suffices h : ∀ (n : Nat) (d : Category), d.level = n →
      InSubtree s r0 d → InSubtree s r1 d → False by
    intro d hd0 hd1
    exact h d.level d rfl hd0 hd1
  intro n
  induction n using Nat.strong_induction_on with
  | _ n ih =>
    intro d hdl hd0 hd1
    rcases inSubtree_inversion s r0 d hd0 with heq0 | ⟨p, hp, hdp⟩
    · rcases inSubtree_inversion s r1 d hd1 with heq1 | ⟨q, hq, hdq⟩
      · rw [heq0] at heq1
        exact hne (by rw [heq1])
      · rw [heq0, hp0] at hdq
        cases hdq
    · rcases inSubtree_inversion s r1 d hd1 with heq1 | ⟨q, hq, hdq⟩
      · rw [heq1, hp1] at hdp
        cases hdp
      · have hpq : p.id = q.id := by
          rw [hdp] at hdq
          injection hdq
        have hpm := inSubtree_mem s r0 h0 p hp
        have hqm := inSubtree_mem s r1 h1 q hq
        have hpe : p = q := uniqueIds_inj s hu p q hpm hqm hpq
        have hdm := inSubtree_mem s r0 h0 d hd0
        obtain ⟨pc, hpcm, hpcid, hlvl⟩ := wellFormed_parent s hw d hdm p.id hdp
        have hpce : pc = p := uniqueIds_inj s hu pc p hpcm hpm hpcid
        rw [hpce] at hlvl
        have hq2 : InSubtree s r1 p := by rw [hpe]; exact hq
        exact ih p.level (by omega) p rfl hp hq2

/-! ## Claim theorems -/

/-- C1 counterexample: `store1` holds a single category (id 1) with zero
associated tags and no children, yet `delete_category` called on it with a
present, invalid token answers the validation failure `Invalid token
provided` and deletes nothing — not the `success` the claim demands for
"any value of the optional token parameter". -/
theorem c1_counterexample :
    store1.getCategoryById 1 = some catA ∧
    (store1.tagsOfCategory 1).length = 0 ∧
    store1.isLeafNode catA = true ∧
    checkTokenEx catA "bad" = false ∧
    delete_category checkTokenEx makeTokenEx settingsOn reqAdmin store1
        (some 1) (some "bad") =
      (Response.json (errorJson msgInvalidToken), store1) ∧
    Response.json (errorJson msgInvalidToken) ≠ Response.json successJson := by
  decide

/-- C1 (amended): for every existing category with zero associated tags and
no children, `delete_category` deletes the node and returns status `success`
when the token parameter is absent or valid for that node; a present invalid
token instead fails with the `Invalid token provided` validation error (the
token check precedes the decision table). -/
theorem c1_delete_empty_leaf (ct : Category → String → Bool)
    (mt : Category → String) (settings : Settings) (req : Request) (s : Store)
    (cid : Nat) (node : Category) (token : Option String)
    (hok : adminOk settings req) (hcid : cid ≠ 0)
    (hfind : s.getCategoryById cid = some node)
    (htags : (s.tagsOfCategory node.id).length = 0)
    (hleaf : s.isLeafNode node = true)
    (htok : token.all (fun t => ct node t) = true) :
    delete_category ct mt settings req s (some cid) token =
      (Response.json successJson, s.removeCategory node.id) := by
  rw [delete_category,
      adminAjaxPost_success settings req s _ successJson (s.removeCategory node.id) hok
        (by rw [deleteCore_checked ct mt s cid node token hcid hfind htok,
                deleteBranch_empty_leaf mt s node token htags hleaf])]

/-- Witness for C1: the concrete tagless-leaf store, deleted with a valid
token. -/
theorem c1_witness :
    delete_category checkTokenEx makeTokenEx settingsOn reqAdmin store1
        (some 1) (some "tok1") =
      (Response.json successJson, store1.removeCategory 1) :=
  c1_delete_empty_leaf checkTokenEx makeTokenEx settingsOn reqAdmin store1 1
    catA (some "tok1") ⟨rfl, rfl, rfl, rfl, rfl⟩ (by decide) (by decide)
    (by decide) (by decide) (by decide)

/-- C3 counterexample: with the category feature flag off,
`get_tag_categories` does not serve the request — it returns HTTP 404 like
every other endpoint (the same request succeeds when the flag is on). -/
theorem c3_counterexample :
    get_tag_categories settingsOff reqAdmin storeX (some 7) =
      Response.notFound ∧
    get_tag_categories settingsOn reqAdmin storeX (some 7) =
      Response.json ⟨"success", none, none, none, some [(1, escape "A")]⟩ := by
  decide

/-- C3 (amended): when the category feature flag is disabled, every Category
Admin API operation — including `get_tag_categories` — responds with HTTP
not-found (404) and leaves the store untouched. -/
theorem c3_flag_off_404 (settings : Settings) (req : Request) (s : Store)
    (name : Option String) (pid cid tid : Option Nat) (token : Option String)
    (ct : Category → String → Bool) (mt : Category → String)
    (hoff : settings.enableCategories = false) :
    add_category settings req s name pid = (Response.notFound, s) ∧
    rename_category settings req s name cid = (Response.notFound, s) ∧
    add_tag_to_category settings req s tid cid = (Response.notFound, s) ∧
    remove_tag_from_category settings req s tid cid = (Response.notFound, s) ∧
    delete_category ct mt settings req s cid token = (Response.notFound, s) ∧
    get_tag_categories settings req s tid = Response.notFound ∧
    get_categories settings req s = Response.notFound := by
  simp [add_category, rename_category, add_tag_to_category,
        remove_tag_from_category, delete_category, get_tag_categories,
        get_categories, adminAjaxPost, hoff]

/-- Witness for C3 (amended), at a concrete flag-off configuration. -/
theorem c3_witness :
    add_category settingsOff reqAdmin store1 (some "Z") none =
      (Response.notFound, store1) ∧
    get_tag_categories settingsOff reqAdmin store1 (some 1) =
      Response.notFound :=
  let h := c3_flag_off_404 settingsOff reqAdmin store1 (some "Z") none
    (some 1) (some 1) none checkTokenEx makeTokenEx (by decide)
  ⟨h.1, h.2.2.2.2.2.1⟩

/-- C4 counterexample: `store2` has a root (id 1) with a child, yet
`delete_category` on the root with a present, invalid token answers the
validation failure `Invalid token provided` rather than
`cannot_delete_subcategories` — the claim fails for "any token value". -/
theorem c4_counterexample :
    store2.getCategoryById 1 = some catA ∧
    store2.isLeafNode catA = false ∧
    checkTokenEx catA "bad" = false ∧
    delete_category checkTokenEx makeTokenEx settingsOn reqAdmin store2
        (some 1) (some "bad") =
      (Response.json (errorJson msgInvalidToken), store2) ∧
    errorJson msgInvalidToken ≠
      (⟨"cannot_delete_subcategories", none, none, none, none⟩ : JsonResponse) := by
  decide

/-- C4 (amended): for every existing category with at least one child,
`delete_category` returns `cannot_delete_subcategories` and deletes nothing
— for any absent-or-valid token and any tag count (the has-children branch
takes precedence over the tag-count branch, so such a category is never
offered `need_confirmation`); a present invalid token instead fails the
token check first. -/
theorem c4_delete_with_children (ct : Category → String → Bool)
    (mt : Category → String) (settings : Settings) (req : Request) (s : Store)
    (cid : Nat) (node : Category) (token : Option String)
    (hok : adminOk settings req) (hcid : cid ≠ 0)
    (hfind : s.getCategoryById cid = some node)
    (hleaf : s.isLeafNode node = false)
    (htok : token.all (fun t => ct node t) = true) :
    delete_category ct mt settings req s (some cid) token =
      (Response.json ⟨"cannot_delete_subcategories", none, none, none, none⟩,
       s) := by
  rw [delete_category,
      adminAjaxPost_success settings req s _
        ⟨"cannot_delete_subcategories", none, none, none, none⟩ s hok
        (by rw [deleteCore_checked ct mt s cid node token hcid hfind htok,
                deleteBranch_children mt s node token hleaf])]

/-- Witness for C4: the concrete root-with-child store, no token. -/
theorem c4_witness :
    delete_category checkTokenEx makeTokenEx settingsOn reqAdmin store2
        (some 1) none =
      (Response.json ⟨"cannot_delete_subcategories", none, none, none, none⟩,
       store2) :=
  c4_delete_with_children checkTokenEx makeTokenEx settingsOn reqAdmin store2
    1 catA none ⟨rfl, rfl, rfl, rfl, rfl⟩ (by decide) (by decide) (by decide)
    (by decide)

/-- C5: for every existing leaf category with at least one associated tag,
`delete_category` without a token returns `need_confirmation` with a token
and the raw list of associated tag names, leaving the store unchanged; and
with any token valid for that node it clears the tag associations, deletes
the node, and returns `success`. -/
theorem c5_delete_tagged_leaf (ct : Category → String → Bool)
    (mt : Category → String) (settings : Settings) (req : Request) (s : Store)
    (cid : Nat) (node : Category) (hok : adminOk settings req) (hcid : cid ≠ 0)
    (hfind : s.getCategoryById cid = some node)
    (hleaf : s.isLeafNode node = true)
    (htags : (s.tagsOfCategory node.id).length ≠ 0) :
    delete_category ct mt settings req s (some cid) none =
      (Response.json ⟨"need_confirmation", none, some (mt node),
        some ((s.tagsOfCategory node.id).map (fun t => t.name)), none⟩, s) ∧
    ∀ t : String, ct node t = true →
      delete_category ct mt settings req s (some cid) (some t) =
        (Response.json successJson,
         (s.clearCategoryTags node.id).removeCategory node.id) := by
  constructor
  · rw [delete_category,
        adminAjaxPost_success settings req s _ _ s hok
          (by rw [deleteCore_checked ct mt s cid node none hcid hfind (by simp),
                  deleteBranch_need_confirmation mt s node htags hleaf])]
  · intro t ht
    rw [delete_category,
        adminAjaxPost_success settings req s _ successJson
          ((s.clearCategoryTags node.id).removeCategory node.id) hok
          (by rw [deleteCore_checked ct mt s cid node (some t) hcid hfind
                    (by simpa using ht),
                  deleteBranch_confirm mt s node t htags hleaf])]

/-- Witness for C5: the concrete one-tag leaf store, both phases of the
confirmation flow. -/
theorem c5_witness :
    delete_category checkTokenEx makeTokenEx settingsOn reqAdmin store3
        (some 1) none =
      (Response.json ⟨"need_confirmation", none, some "tok1", some ["t5"],
        none⟩, store3) ∧
    delete_category checkTokenEx makeTokenEx settingsOn reqAdmin store3
        (some 1) (some "tok1") =
      (Response.json successJson,
       (store3.clearCategoryTags 1).removeCategory 1) :=
  let h := c5_delete_tagged_leaf checkTokenEx makeTokenEx settingsOn reqAdmin
    store3 1 catA ⟨rfl, rfl, rfl, rfl, rfl⟩ (by decide) (by decide) (by decide)
    (by decide)
  ⟨h.1, h.2 "tok1" (by decide)⟩

/-- C6: with an existing parent at zero-based level L, `add_category` fails
with the nesting-depth error if and only if L + 1 is at least the configured
maximum tree depth; below the boundary no depth error is raised. -/
theorem c6_depth_boundary (settings : Settings) (req : Request) (s : Store)
    (name : String) (pid : Nat) (parent : Category)
    (hok : adminOk settings req) (hname : name ≠ "") (hpid : pid ≠ 0)
    (hfind : s.getCategoryById pid = some parent) :
    (add_category settings req s (some name) (some pid)).1 =
        Response.json (errorJson msgDepth) ↔
      settings.maxTreeDepth ≤ parent.level + 1 := by
  rw [add_category, adminAjaxPost_ok settings req s _ hok,
      addCore_with_parent settings name pid parent s hname hpid hfind]
  by_cases h : settings.maxTreeDepth - 1 ≤ parent.level
  · rw [if_pos h]
    constructor
    · intro _; omega
    · intro _
      show Response.json (errorJson (orApology (ApiError.valueErr msgDepth).message)) = _
      have ha : orApology (ApiError.valueErr msgDepth).message = msgDepth := by decide
      rw [ha]
  · rw [if_neg h]
    constructor
    · intro hres
      exfalso
      unfold addCategoryFinish at hres
      simp only [Option.getD_some] at hres
      cases hfound : s.getCategoryByName name with
      | some d =>
        rw [hfound] at hres
        exact absurd (show Response.json (errorJson (orApology msgDuplicate)) =
            Response.json (errorJson msgDepth) from hres) (by decide)
      | none =>
        rw [hfound] at hres
        exact absurd (show Response.json successJson =
            Response.json (errorJson msgDepth) from hres) (by decide)
    · intro hrhs; exfalso; omega

/-- Witness for C6: a parent at level 0 with a configured maximum depth of 1
yields the depth error. -/
theorem c6_witness :
    (add_category ⟨true, 1⟩ reqAdmin store1 (some "Z") (some 1)).1 =
      Response.json (errorJson msgDepth) :=
  (c6_depth_boundary ⟨true, 1⟩ reqAdmin store1 "Z" 1 catA
    ⟨rfl, rfl, rfl, rfl, rfl⟩ (by decide) (by decide) (by decide)).mpr
    (by decide)

/-- C9: `add_tag_to_category` fails with the missing-parameter error exactly
when `tag_id` is absent or zero (falsy) or `cat_id` is absent; a present
`cat_id` of 0 passes the presence check, and for present parameters the
category lookup is performed (and fails) before the tag lookup, each with
its own entity-does-not-exist error. -/
theorem c9_add_tag_param_checks :
    (∀ (settings : Settings) (req : Request) (s : Store) (tid cid : Option Nat),
      adminOk settings req →
      ((add_tag_to_category settings req s tid cid).1 =
          Response.json (errorJson msgMissingParam) ↔
        (tid = none ∨ tid = some 0 ∨ cid = none))) ∧
    (∀ (settings : Settings) (req : Request) (s : Store) (tid : Option Nat)
      (cv : Nat), adminOk settings req → truthyNat tid = true →
      s.getCategoryById cv = none →
      (add_tag_to_category settings req s tid (some cv)).1 =
        Response.json (errorJson msgCatNoExist)) ∧
    (∀ (settings : Settings) (req : Request) (s : Store) (tid : Option Nat)
      (cv : Nat) (cat : Category), adminOk settings req →
      truthyNat tid = true → s.getCategoryById cv = some cat →
      s.getTagById (tid.getD 0) = none →
      (add_tag_to_category settings req s tid (some cv)).1 =
        Response.json (errorJson msgTagNoExist)) := by
  refine ⟨?_, ?_, ?_⟩
  · intro settings req s tid cid hok
    rw [add_tag_to_category, adminAjaxPost_ok settings req s _ hok]
    by_cases hmiss : truthyNat tid = false ∨ cid = none
    · have hcore : addTagToCategoryCore tid cid s =
          .error (.validationErr msgMissingParam) := by
        unfold addTagToCategoryCore
        rcases hmiss with h | h
        · simp [h]
        · simp [h]
      rw [hcore]
      constructor
      · intro _
        rcases hmiss with h | h
        · cases tid with
          | none => exact Or.inl rfl
          | some v =>
            have hv : v = 0 := by simpa [truthyNat] using h
            exact Or.inr (Or.inl (by rw [hv]))
        · exact Or.inr (Or.inr h)
      · intro _
        show Response.json
            (errorJson (orApology (ApiError.validationErr msgMissingParam).message)) = _
        have ha : orApology (ApiError.validationErr msgMissingParam).message =
            msgMissingParam := by decide
        rw [ha]
    · push_neg at hmiss
      obtain ⟨htid, hcid⟩ := hmiss
      have htid2 : truthyNat tid = true := by
        cases hx : truthyNat tid
        · exact absurd hx htid
        · rfl
      constructor
      · intro hres
        exfalso
        cases cid with
        | none => exact hcid rfl
        | some cv =>
          unfold addTagToCategoryCore at hres
          simp only [htid2, Bool.not_true, Bool.false_or, Option.getD_some] at hres
          cases hc : s.getCategoryById cv with
          | none =>
            rw [hc] at hres
            exact absurd (show Response.json (errorJson (orApology msgCatNoExist)) =
                Response.json (errorJson msgMissingParam) from hres) (by decide)
          | some cat =>
            rw [hc] at hres
            cases ht : s.getTagById (tid.getD 0) with
            | none =>
              rw [ht] at hres
              exact absurd (show Response.json (errorJson (orApology msgTagNoExist)) =
                  Response.json (errorJson msgMissingParam) from hres) (by decide)
            | some tg =>
              rw [ht] at hres
              exact absurd (show Response.json successJson =
                  Response.json (errorJson msgMissingParam) from hres) (by decide)
      · intro hrhs
        exfalso
        rcases hrhs with h | h | h
        · rw [h] at htid2; simp [truthyNat] at htid2
        · rw [h] at htid2; simp [truthyNat] at htid2
        · exact hcid h
  · intro settings req s tid cv hok htid hfind
    rw [add_tag_to_category,
        adminAjaxPost_error settings req s _ _ hok
          (addTagCore_cat_missing tid cv s htid hfind)]
    have ha : orApology (ApiError.validationErr msgCatNoExist).message =
        msgCatNoExist := by decide
    rw [ha]
  · intro settings req s tid cv cat hok htid hfindc hfindt
    rw [add_tag_to_category,
        adminAjaxPost_error settings req s _ _ hok
          (addTagCore_tag_missing tid cv cat s htid hfindc hfindt)]
    have ha : orApology (ApiError.validationErr msgTagNoExist).message =
        msgTagNoExist := by decide
    rw [ha]

/-- Witness for C9: a present `cat_id` of 0 passes the presence check and
reaches the category-existence error, while a zero `tag_id` is reported as
missing. -/
theorem c9_witness :
    (add_tag_to_category settingsOn reqAdmin storeX (some 9) (some 0)).1 =
      Response.json (errorJson msgCatNoExist) ∧
    (add_tag_to_category settingsOn reqAdmin storeX (some 0) (some 1)).1 =
      Response.json (errorJson msgMissingParam) :=
  ⟨c9_add_tag_param_checks.2.1 settingsOn reqAdmin storeX (some 9) 0
    ⟨rfl, rfl, rfl, rfl, rfl⟩ (by decide) (by decide),
   (c9_add_tag_param_checks.1 settingsOn reqAdmin storeX (some 0) (some 1)
    ⟨rfl, rfl, rfl, rfl, rfl⟩).mpr (Or.inr (Or.inl rfl))⟩

/-- C2 counterexample: `storeX` holds a tag named `<b>` attached to a leaf
category; the `need_confirmation` answer of `delete_category` returns that
tag name verbatim in its `tags` list, not HTML-escaped, although `escape`
would change it. -/
theorem c2_counterexample :
    (delete_category checkTokenEx makeTokenEx settingsOn reqAdmin storeX
        (some 1) none).1 =
      Response.json ⟨"need_confirmation", none, some "tok1", some ["<b>"],
        none⟩ ∧
    escape "<b>" ≠ "<b>" ∧
    some ["<b>"] ≠ some (["<b>"].map escape) := by
  decide

/-- C2 (amended): `get_tag_categories` returns every category name in its
`cats` list HTML-escaped, and `get_categories` returns every line with the
name HTML-escaped; but the `tags` list of the `need_confirmation` response
of `delete_category` embeds the associated tag names verbatim, unescaped. -/
theorem c2_escaping (settings : Settings) (req : Request) (s : Store) :
    (∀ (tid : Nat) (tag : Tag),
      settings.enableCategories = true → req.isAjax = true →
      req.httpMethod = "POST" → tid ≠ 0 → s.getTagById tid = some tag →
      ∃ pairs,
        get_tag_categories settings req s (some tid) =
          Response.json ⟨"success", none, none, none, some pairs⟩ ∧
        pairs = (s.categoriesOfTag tag.id).map (fun c => (c.id, escape c.name)) ∧
        ∀ pr ∈ pairs, ∃ c ∈ s.categories, pr = (c.id, escape c.name)) ∧
    (settings.enableCategories = true → req.httpMethod = "GET" →
      req.isAuthenticated = true → req.isAdministrator = true →
      req.isAjax = true →
      get_categories settings req s =
        Response.plainText
          (String.join ((sortByName s.categories).map categoryLine)) ∧
      ∀ c, c ∈ sortByName s.categories ↔ c ∈ s.categories) ∧
    (∀ (ct : Category → String → Bool) (mt : Category → String) (cid : Nat)
      (node : Category), adminOk settings req → cid ≠ 0 →
      s.getCategoryById cid = some node → s.isLeafNode node = true →
      (s.tagsOfCategory node.id).length ≠ 0 →
      delete_category ct mt settings req s (some cid) none =
        (Response.json ⟨"need_confirmation", none, some (mt node),
          some ((s.tagsOfCategory node.id).map (fun t => t.name)), none⟩,
         s)) := by
  refine ⟨?_, ?_, ?_⟩
  · intro tid tag hflag hajax hpost htid hfind
    refine ⟨(s.categoriesOfTag tag.id).map (fun c => (c.id, escape c.name)),
      ?_, rfl, ?_⟩
    · have hcore : getTagCategoriesCore (some tid) s =
          .ok ⟨"success", none, none, none,
            some ((s.categoriesOfTag tag.id).map (fun c => (c.id, escape c.name)))⟩ := by
        simp [getTagCategoriesCore, truthyNat, htid, hfind]
      simp [get_tag_categories, hflag, hajax, hpost, hcore]
    · intro pr hpr
      obtain ⟨c, hc, hceq⟩ := List.mem_map.mp hpr
      exact ⟨c, categoriesOfTag_mem s tag.id c hc, hceq.symm⟩
  · intro hflag hget hauth hadmin hajax
    constructor
    · simp [get_categories, hflag, hget, hauth, hadmin, hajax]
    · exact fun c => sortByName_mem s.categories c
  · intro ct mt cid node hok hcid hfind hleaf htags
    rw [delete_category,
        adminAjaxPost_success settings req s _ _ s hok
          (by rw [deleteCore_checked ct mt s cid node none hcid hfind (by simp),
                  deleteBranch_need_confirmation mt s node htags hleaf])]

/-- Witness for C2 (amended), at concrete stores: the escaped category list
of `get_tag_categories` and the raw tag names of `delete_category`. -/
theorem c2_witness :
    (∃ pairs,
      get_tag_categories settingsOn reqAdmin storeX (some 7) =
        Response.json ⟨"success", none, none, none, some pairs⟩ ∧
      pairs = (storeX.categoriesOfTag 7).map (fun c => (c.id, escape c.name)) ∧
      ∀ pr ∈ pairs, ∃ c ∈ storeX.categories, pr = (c.id, escape c.name)) ∧
    delete_category checkTokenEx makeTokenEx settingsOn reqAdmin storeX
        (some 1) none =
      (Response.json ⟨"need_confirmation", none, some (makeTokenEx catA),
        some ((storeX.tagsOfCategory 1).map (fun t => t.name)), none⟩,
       storeX) :=
  ⟨(c2_escaping settingsOn reqAdmin storeX).1 7 tagXss rfl rfl rfl
    (by decide) (by decide),
   (c2_escaping settingsOn reqAdmin storeX).2.2 checkTokenEx makeTokenEx 1
    catA ⟨rfl, rfl, rfl, rfl, rfl⟩ (by decide) (by decide) (by decide)
    (by decide)⟩

/-- C7: category-name uniqueness is global — `add_category` fails with the
duplicate-name error whenever any category anywhere has the requested name
(whether adding a root or a child), `rename_category` fails likewise when
another category holds the target name regardless of position, and no
operation that mutates categories breaks the no-two-categories-share-a-name
invariant. -/
theorem c7_name_uniqueness :
    (∀ (settings : Settings) (req : Request) (s : Store) (name : String)
      (pid : Option Nat) (c : Category),
      adminOk settings req → name ≠ "" → truthyNat pid = false →
      c ∈ s.categories → c.name = name →
      add_category settings req s (some name) pid =
        (Response.json (errorJson msgDuplicate), s)) ∧
    (∀ (settings : Settings) (req : Request) (s : Store) (name : String)
      (pid : Nat) (parent c : Category),
      adminOk settings req → name ≠ "" → pid ≠ 0 →
      s.getCategoryById pid = some parent →
      parent.level < settings.maxTreeDepth - 1 →
      c ∈ s.categories → c.name = name →
      add_category settings req s (some name) (some pid) =
        (Response.json (errorJson msgDuplicate), s)) ∧
    (∀ (settings : Settings) (req : Request) (s : Store) (name : String)
      (cid : Nat) (node c : Category),
      adminOk settings req → name ≠ "" → cid ≠ 0 →
      s.getCategoryById cid = some node → c ∈ s.categories →
      c.name = name → c.id ≠ node.id → s.namesNodup →
      rename_category settings req s (some name) (some cid) =
        (Response.json (errorJson msgDuplicate), s)) ∧
    (∀ (settings : Settings) (req : Request) (s : Store) (name : Option String)
      (pid : Option Nat), s.namesNodup →
      ((add_category settings req s name pid).2).namesNodup) ∧
    (∀ (settings : Settings) (req : Request) (s : Store) (name : Option String)
      (cid : Option Nat), s.namesNodup → s.uniqueIds →
      ((rename_category settings req s name cid).2).namesNodup) ∧
    (∀ (ct : Category → String → Bool) (mt : Category → String)
      (settings : Settings) (req : Request) (s : Store) (cid : Option Nat)
      (token : Option String), s.namesNodup →
      ((delete_category ct mt settings req s cid token).2).namesNodup) := by
  refine ⟨?_, ?_, ?_, ?_, ?_, ?_⟩
  · intro settings req s name pid c hok hname hpid hc hcname
    obtain ⟨d, hd⟩ := getCategoryByName_of_mem s c name hc hcname
    rw [add_category, adminAjaxPost_error settings req s _ _ hok
      (by rw [addCore_root settings name pid s hname hpid,
              addCategoryFinish_dup (some name) s none d hd])]
    have ha : orApology (ApiError.validationErr msgDuplicate).message =
        msgDuplicate := by decide
    rw [ha]
  · intro settings req s name pid parent c hok hname hpid hfind hdepth hc hcname
    obtain ⟨d, hd⟩ := getCategoryByName_of_mem s c name hc hcname
    have hnd : ¬ (settings.maxTreeDepth - 1 ≤ parent.level) := by omega
    rw [add_category, adminAjaxPost_error settings req s _ _ hok
      (by rw [addCore_with_parent settings name pid parent s hname hpid hfind,
              if_neg hnd,
              addCategoryFinish_dup (some name) s (some parent) d hd])]
    have ha : orApology (ApiError.validationErr msgDuplicate).message =
        msgDuplicate := by decide
    rw [ha]
  · intro settings req s name cid node c hok hname hcid hfind hc hcname hne hnn
    rw [rename_category, adminAjaxPost_error settings req s _ _ hok
      (renameCore_dup s name cid node c hname hcid hfind hc hcname hne hnn)]
    have ha : orApology (ApiError.validationErr msgDuplicate).message =
        msgDuplicate := by decide
    rw [ha]
  · intro settings req s name pid hn
    exact adminAjaxPost_preserves settings req s _
      (fun b s2 h => addCore_preserves settings name pid s b s2 h hn) hn
  · intro settings req s name cid hn hu
    exact adminAjaxPost_preserves settings req s _
      (fun b s2 h => renameCore_preserves name cid s b s2 h hn hu) hn
  · intro ct mt settings req s cid token hn
    exact adminAjaxPost_preserves settings req s _
      (fun b s2 h => deleteCore_preserves ct mt cid token s b s2 h hn) hn

/-- Witness for C7: duplicate adds and renames against concrete stores, and
invariant preservation on a concrete mutation. -/
theorem c7_witness :
    add_category settingsOn reqAdmin store1 (some "A") none =
      (Response.json (errorJson msgDuplicate), store1) ∧
    rename_category settingsOn reqAdmin store2 (some "A") (some 2) =
      (Response.json (errorJson msgDuplicate), store2) ∧
    ((add_category settingsOn reqAdmin store1 (some "Z") none).2).namesNodup :=
  ⟨c7_name_uniqueness.1 settingsOn reqAdmin store1 "A" none catA
    ⟨rfl, rfl, rfl, rfl, rfl⟩ (by decide) (by decide) (by decide) rfl,
   c7_name_uniqueness.2.2.1 settingsOn reqAdmin store2 "A" 2 catB catA
    ⟨rfl, rfl, rfl, rfl, rfl⟩ (by decide) (by decide) (by decide) (by decide)
    rfl (by decide) (by unfold Store.namesNodup; decide),
   c7_name_uniqueness.2.2.2.1 settingsOn reqAdmin store1 (some "Z") none
    (by unfold Store.namesNodup; decide)⟩

/-- C8: `generate_tree` returns the empty structure on an empty store; a
non-empty well-formed store has a first root and `generate_tree` serializes
it; and at every node reached with adequate fuel the serialization's `name`
and `id` match the store, its `children` are exactly the serializations of
the store children in store order (each again with adequate fuel), and
`children` is empty iff the node is a leaf.  `generate_tree` is a pure
function of the store, so it performs no mutation. -/
theorem c8_generate_tree_spec :
    (∀ s : Store, s.categories = [] → generate_tree s = none) ∧
    (∀ s : Store, s.wellFormed → s.categories ≠ [] → s.rootCategories ≠ []) ∧
    (∀ (s : Store) (r : Category) (rest : List Category),
      s.rootCategories = r :: rest →
      generate_tree s = some (recurse_tree s (s.maxLevel + 1) r)) ∧
    (∀ s : Store, s.wellFormed → s.uniqueIds →
      ∀ c ∈ s.categories, ∀ fuel : Nat, s.maxLevel < c.level + fuel →
        (recurse_tree s fuel c).name = c.name ∧
        (recurse_tree s fuel c).id = c.id ∧
        (recurse_tree s fuel c).children =
          (s.childrenOf c.id).map (fun d => recurse_tree s (fuel - 1) d) ∧
        ((recurse_tree s fuel c).children = [] ↔ s.isLeafNode c = true) ∧
        ∀ d ∈ s.childrenOf c.id, s.maxLevel < d.level + (fuel - 1)) := by
  refine ⟨?_, ?_, ?_, ?_⟩
  · intro s h
    simp [generate_tree, Store.rootCategories, h]
  · intro s hw hne
    exact rootCategories_ne_nil s hw hne
  · intro s r rest h
    exact generate_tree_cons s r rest h
  · intro s hw hu c hc fuel hf
    rw [recurse_tree_adequate s c fuel hc hf]
    refine ⟨rfl, rfl, rfl, ?_, ?_⟩
    · show (s.childrenOf c.id).map _ = [] ↔ _
      constructor
      · intro hmap
        have hnil : s.childrenOf c.id = [] := by
          cases hcs : s.childrenOf c.id with
          | nil => rfl
          | cons x xs => rw [hcs] at hmap; simp at hmap
        simp [Store.isLeafNode, hnil]
      · intro hleaf
        have hnil : s.childrenOf c.id = [] := by
          simpa [Store.isLeafNode, List.isEmpty_iff] using hleaf
        simp [hnil]
    · intro d hd
      have hdl := (child_level s hw hu c hc d hd).2
      have hcl := level_le_maxLevel s c hc
      omega

/-- Witness for C8: the two-node store, root `catA`. -/
theorem c8_witness :
    generate_tree store2 =
      some (recurse_tree store2 (store2.maxLevel + 1) catA) ∧
    (recurse_tree store2 (store2.maxLevel + 1) catA).name = "A" ∧
    (recurse_tree store2 (store2.maxLevel + 1) catA).children =
      (store2.childrenOf 1).map
        (fun d => recurse_tree store2 (store2.maxLevel + 1 - 1) d) :=
  let h4 := c8_generate_tree_spec.2.2.2 store2
    (by unfold Store.wellFormed; decide) (by unfold Store.uniqueIds; decide)
    catA (by decide) (store2.maxLevel + 1) (by decide)
  ⟨c8_generate_tree_spec.2.2.1 store2 catA [] rfl, h4.1, h4.2.2.1⟩

/-- C10: when the store holds more than one root, `generate_tree` — a total
function, so no error is raised — serializes only the first root in store
order, and no id of the second root or of any node of its subtree occurs
anywhere in the output. -/
theorem c10_only_first_root (s : Store) (hw : s.wellFormed)
    (hu : s.uniqueIds) (r0 r1 : Category) (rest : List Category)
    (hroots : s.rootCategories = r0 :: r1 :: rest) :
    generate_tree s = some (recurse_tree s (s.maxLevel + 1) r0) ∧
    ∀ d, InSubtree s r1 d →
      d.id ∉ (recurse_tree s (s.maxLevel + 1) r0).ids := by
  have hr0 : r0 ∈ s.rootCategories := by
    rw [hroots]; exact List.mem_cons_self _ _
  have hr1 : r1 ∈ s.rootCategories := by
    rw [hroots]; exact List.mem_cons_of_mem _ (List.mem_cons_self _ _)
  obtain ⟨h0m, h0p⟩ := rootCategories_fact s r0 hr0
  obtain ⟨h1m, h1p⟩ := rootCategories_fact s r1 hr1
  have hids := rootCategories_ids_nodup s hu
  rw [hroots] at hids
  simp only [List.map_cons, List.nodup_cons, List.mem_cons] at hids
  have hne : r0.id ≠ r1.id := fun h => hids.1 (Or.inl h)
  refine ⟨generate_tree_cons s r0 (r1 :: rest) hroots, ?_⟩
  intro d hd hmem
  obtain ⟨e, he, hei⟩ := ids_subtree s (s.maxLevel + 1) r0 d.id hmem
  have hdm : d ∈ s.categories := inSubtree_mem s r1 h1m d hd
  have hem : e ∈ s.categories := inSubtree_mem s r0 h0m e he
  have hed : e = d := uniqueIds_inj s hu e d hem hdm hei
  rw [hed] at he
  exact subtree_disjoint s hw hu r0 r1 h0m h1m h0p h1p hne d he hd

/-- Witness for C10: the two-root store `storeM`: the output serializes
`catA` only and omits the second root `catR2` (id 3). -/
theorem c10_witness :
    generate_tree storeM =
      some (recurse_tree storeM (storeM.maxLevel + 1) catA) ∧
    (3 : Nat) ∉ (recurse_tree storeM (storeM.maxLevel + 1) catA).ids :=
  let h := c10_only_first_root storeM (by unfold Store.wellFormed; decide)
    (by unfold Store.uniqueIds; decide) catA catR2 [] rfl
  ⟨h.1, h.2 catR2 InSubtree.refl⟩

end AskbotCats
